import Mathlib

/-!
Shallow embedding of the man-page SYNOPSIS grammar extractor in
`src/main.go` of michaeltchapman/kgo, together with proofs about its
behavior.  Pure string helpers mirror the Go standard-library functions the
source uses (`strings.HasPrefix`, `strings.Contains`, `strings.Split`,
`strings.TrimLeft`, `strings.ToUpper`).  File-system traversal, file
loading and printing are out of scope (spec §6) and are not modelled.
-/

/-- Character-list prefix test: `strings.HasPrefix s pre` of the source. -/
def strHasPrefix (s pre : String) : Bool :=
  pre.toList.isPrefixOf s.toList

/-- Substring search on character lists (helper for `strContains`). -/
def containsSub (s sub : List Char) : Bool :=
  match s with
  | [] => sub.isEmpty
  | c :: t => sub.isPrefixOf (c :: t) || containsSub t sub

/-- `strings.Contains s sub` of the source. -/
def strContains (s sub : String) : Bool :=
  containsSub s.toList sub.toList

/-- Split on every single space character, keeping empty fields:
`strings.Split s " "` of the source, on character lists. -/
def splitOnSpace : List Char → List (List Char)
  | [] => [[]]
  | c :: rest =>
    if c == ' ' then [] :: splitOnSpace rest
    else
      match splitOnSpace rest with
      | [] => [[c]]
      | g :: gs => (c :: g) :: gs

/-- `strings.Split s " "` of the source, producing strings. -/
def goSplitSpace (s : String) : List String :=
  (splitOnSpace s.toList).map String.mk

/-- `strings.TrimLeft raw "."` of the source: drop every leading dot. -/
def trimLeftDots (s : String) : String :=
  String.mk (s.toList.dropWhile (fun c => c == '.'))

/-- `strings.ToUpper` as used by the source (ASCII inputs only). -/
def toUpperStr (s : String) : String :=
  String.mk (s.toList.map Char.toUpper)

/-- The macros the program understands: `knownMacros` of the source. -/
def knownMacros : List String := [".Nm", ".Op", ".Ar", ".Fl"]

/-- `quoteString` of the source. -/
def quoteString (s : String) : String :=
  "\"" ++ s ++ "\""

/-- `pass` of the source. -/
def pass (s : String) : String := s

/-- `modfunctions` of the source's `isSynopsisLine`: the three renderings
(quoted, as written, uppercased) applied to heading tag and section word. -/
def modfunctions : List (String → String) := [quoteString, pass, toUpperStr]

/-- `isSynopsisLine` of the source: the line starts a SYNOPSIS heading if it
has `<tag> <word>` as a prefix for any of the 3×3 rendering combinations.
The source accumulates `ret = ret || ...` over two nested loops, which is
the same boolean as the nested `any`. -/
def isSynopsisLine (line : String) : Bool :=
  modfunctions.any fun shfunc =>
    modfunctions.any fun synfunc =>
      strHasPrefix line (shfunc ".Sh" ++ " " ++ synfunc "synopsis")

/-- `isNameLine` of the source: it tests the regex `^\.Nm( \w+)?`, whose
optional group can match the empty string, so the test is exactly "the line
starts with `.Nm`". -/
def isNameLine (line : String) : Bool :=
  strHasPrefix line ".Nm"

/-- `compliantLine` of the source: the line contains one of the four
recognized macros somewhere. -/
def compliantLine (line : String) : Bool :=
  knownMacros.any fun m => strContains line m

/-- Whether a whole line matches the `getDefinedName` regex
`^\.Nm ([a-z]+)$`: the literal `.Nm `, then one nonempty run of lowercase
ASCII letters, and nothing else (the regex is anchored at both ends). -/
def isNameDefLine (line : String) : Bool :=
  ".Nm ".toList.isPrefixOf line.toList &&
    (!(line.toList.drop 4).isEmpty &&
      (line.toList.drop 4).all fun c => decide ('a' ≤ c) && decide (c ≤ 'z'))

/-- `getDefinedName` of the source: for the first line matching the regex
the source returns `strings.Split(result[0][0], " ")[1]`, where
`result[0][0]` is the whole line (the regex is anchored); with no matching
line it returns the empty string. -/
def getDefinedName : List String → String
  | [] => ""
  | line :: rest =>
    if isNameDefLine line then String.mk ((splitOnSpace line.toList).getD 1 [])
    else getDefinedName rest

/-- Loop state of `getSynopsisLines`: the index where the heading was seen
(`start`, with 0 doubling as "not seen yet"), the groups collected so far,
and the index of the group currently being filled (initially -1). -/
structure SynAcc where
  start : Nat
  synopsis : List (List String)
  usagePattern : Int

/-- `synopsis[usagePattern] = append(synopsis[usagePattern], line)` of the
source.  Whenever the source executes it, `usagePattern` is a valid index
(a group was just opened or already exists), so `List.set` never no-ops on
the reachable states. -/
def synopsisAppend (syn : List (List String)) (idx : Int) (line : String) :
    List (List String) :=
  syn.set idx.toNat (syn.getD idx.toNat [] ++ [line])

/-- The scanning loop of `getSynopsisLines`, one iteration per line, `i` the
current index.  Reaching another section heading returns early (`break`). -/
def getSynopsisLinesLoop : List String → Nat → SynAcc → List (List String)
  | [], _, acc => acc.synopsis
  | line :: rest, i, acc =>
    if isSynopsisLine line then
      getSynopsisLinesLoop rest (i + 1) { acc with start := i }
    else if acc.start ≠ 0 then
      if !(strHasPrefix line ".Sh" || strHasPrefix line ".SH") then
        if compliantLine line then
          let acc1 :=
            if isNameLine line || acc.usagePattern == -1 then
              { acc with synopsis := acc.synopsis ++ [[]],
                         usagePattern := acc.usagePattern + 1 }
            else acc
          getSynopsisLinesLoop rest (i + 1)
            { acc1 with
                synopsis := synopsisAppend acc1.synopsis acc1.usagePattern line }
        else getSynopsisLinesLoop rest (i + 1) acc
      else acc.synopsis
    else getSynopsisLinesLoop rest (i + 1) acc

/-- `getSynopsisLines` of the source. -/
def getSynopsisLines (lines : List String) : List (List String) :=
  getSynopsisLinesLoop lines 0 ⟨0, [], -1⟩

/-- The `Parameter` struct of the source (recursive through the optional
`parameter *Parameter` child, modelled as `Option Parameter`). -/
inductive Parameter : Type where
  | mk (name : String) (optional : Bool) (nospace : Bool)
      (hasargument : Bool) (argument : String)
      (hasflags : Bool) (flags : String)
      (hasparameter : Bool) (parameter : Option Parameter) : Parameter

namespace Parameter

def name : Parameter → String
  | mk n _ _ _ _ _ _ _ _ => n

def optional : Parameter → Bool
  | mk _ o _ _ _ _ _ _ _ => o

def nospace : Parameter → Bool
  | mk _ _ s _ _ _ _ _ _ => s

def hasargument : Parameter → Bool
  | mk _ _ _ h _ _ _ _ _ => h

def argument : Parameter → String
  | mk _ _ _ _ a _ _ _ _ => a

def hasflags : Parameter → Bool
  | mk _ _ _ _ _ h _ _ _ => h

def flags : Parameter → String
  | mk _ _ _ _ _ _ f _ _ => f

def hasparameter : Parameter → Bool
  | mk _ _ _ _ _ _ _ h _ => h

def parameter : Parameter → Option Parameter
  | mk _ _ _ _ _ _ _ _ c => c

/-- The zero value `Parameter{}` of Go. -/
def empty : Parameter := mk "" false false false "" false "" false none

def setOptional : Parameter → Bool → Parameter
  | mk n _ s ha a hf f hp c, b => mk n b s ha a hf f hp c

def setHasargument : Parameter → Bool → Parameter
  | mk n o s _ a hf f hp c, b => mk n o s b a hf f hp c

def setArgument : Parameter → String → Parameter
  | mk n o s ha _ hf f hp c, v => mk n o s ha v hf f hp c

def setHasflags : Parameter → Bool → Parameter
  | mk n o s ha a _ f hp c, b => mk n o s ha a b f hp c

def setFlags : Parameter → String → Parameter
  | mk n o s ha a hf _ hp c, v => mk n o s ha a hf v hp c

def setHasparameter : Parameter → Bool → Parameter
  | mk n o s ha a hf f _ c, b => mk n o s ha a hf f b c

def setParameter : Parameter → Option Parameter → Parameter
  | mk n o s ha a hf f hp _, c => mk n o s ha a hf f hp c

/-- Number of `parameter` links below this node (depth of nesting). -/
def nestDepth : Parameter → Nat
  | mk _ _ _ _ _ _ _ _ none => 0
  | mk _ _ _ _ _ _ _ _ (some q) => nestDepth q + 1

end Parameter

/-- `isValidParameter` of the source. -/
def isValidParameter (p : Parameter) : Bool :=
  p.optional || p.nospace || p.hasflags || p.hasargument || p.hasparameter

/-- Shared tail of the three macro blocks of `buildParameter`: mark a nested
parameter as present and, mirroring the source's `if err != nil` guard,
either record the recursive error or attach the recursively built child.
`nested` is the result of the recursive `buildParameter(tokens[i:])` call. -/
def attachNested (nested : Parameter × Option String) (p : Parameter)
    (err : Option String) : Parameter × Option String :=
  let p2 := p.setHasparameter true
  if err ≠ none then (p2, nested.2) else (p2.setParameter (some nested.1), err)

/-- The `token == "Op"` block of `buildParameter`. -/
def opStep (token : String) (nested : Parameter × Option String)
    (p : Parameter) (err : Option String) : Parameter × Option String :=
  if token == "Op" then
    if !p.optional then (p.setOptional true, err)
    else if !p.hasparameter then attachNested nested p err
    else (p, err)
  else (p, err)

/-- The `token == "Ar" && !p.hasargument` block of `buildParameter`.  `rest`
is the token list after the current token, used for the `tokens[i+1]`
lookahead.  Note the outer guard repeats `!p.hasargument`, so the inner
`else if` (a redundant sighting attaching a nested parameter) is dead code,
kept here exactly as in the source. -/
def arStep (token : String) (rest : List String)
    (nested : Parameter × Option String) (p : Parameter)
    (err : Option String) : Parameter × Option String :=
  if token == "Ar" && !p.hasargument then
    if !p.hasargument then
      let p2 := p.setHasargument true
      match rest with
      | next :: _ => (p2.setArgument next, err)
      | [] => (p2.setArgument "files", err)
    else if !p.hasparameter then attachNested nested p err
    else (p, err)
  else (p, err)

/-- The `token == "Fl" && !p.hasflags` block of `buildParameter`, with the
same dead `else if` as the argument block. -/
def flStep (token : String) (rest : List String)
    (nested : Parameter × Option String) (p : Parameter)
    (err : Option String) : Parameter × Option String :=
  if token == "Fl" && !p.hasflags then
    if !p.hasflags then
      let p2 := p.setHasflags true
      match rest with
      | next :: _ => (p2.setFlags next, err)
      | [] => (p2.setFlags "-", err)
    else if !p.hasparameter then attachNested nested p err
    else (p, err)
  else (p, err)

/-- One iteration of `buildParameter`'s token loop: strip leading dots and
run the three macro blocks in source order on the same token. -/
def tokenStep (t : String) (rest : List String)
    (nested : Parameter × Option String) (p : Parameter)
    (err : Option String) : Parameter × Option String :=
  let token := trimLeftDots t
  let s1 := opStep token nested p err
  let s2 := arStep token rest nested s1.1 s1.2
  flStep token rest nested s2.1 s2.2

/-- `buildParameter`'s scanning loop with an explicit fuel counter so the
recursion is structural.  The `tokens[i:]` suffix the source re-parses on a
redundant macro sighting is exactly the current remaining token list, so the
nested call is `buildParameterAux fuel Parameter.empty none (t :: rest)`.
With the fuel used below the counter never runs out
(`buildParameterAux_stable`): each nested call happens only after at least
one token of the suffix has set `optional`, so the suffix shrinks. -/
def buildParameterAux (fuel : Nat) (p : Parameter) (err : Option String)
    (tokens : List String) : Parameter × Option String :=
  match tokens, fuel with
  | [], _ => (p, err)
  | _ :: _, 0 => (p, err)
  | t :: rest, fuel + 1 =>
    let s := tokenStep t rest (buildParameterAux fuel Parameter.empty none (t :: rest)) p err
    buildParameterAux fuel s.1 s.2 rest

/-- `buildParameter` of the source. -/
def buildParameter (tokens : List String) : Parameter × Option String :=
  buildParameterAux (2 * tokens.length) Parameter.empty none tokens

/-- The scanning loop of `buildParameter` at canonical fuel, i.e. the loop
as the source runs it from an arbitrary in-progress `Parameter`. -/
def buildParameterGo (p : Parameter) (err : Option String)
    (tokens : List String) : Parameter × Option String :=
  buildParameterAux (2 * tokens.length + 1) p err tokens

/-- The `Syntax` struct of the source. -/
structure Syntax where
  parameters : List Parameter

/-- The `Command` struct of the source. -/
structure Command where
  name : String
  syntaxes : List Syntax

/-- `isValidSyntax` of the source. -/
def isValidSyntax (s : Syntax) : Bool :=
  decide (s.parameters.length > 0)

/-- One iteration of `buildSyntax`'s loop: `param, e := buildParameter(...)`,
`if e != nil { err = e } else if isValidParameter(param) { append }`. -/
def buildSyntaxStep (acc : List Parameter × Option String) (line : String) :
    List Parameter × Option String :=
  let r := buildParameter (goSplitSpace line)
  if r.2 ≠ none then (acc.1, r.2)
  else if isValidParameter r.1 then (acc.1 ++ [r.1], acc.2)
  else acc

/-- `buildSyntax` of the source: build one `Parameter` per line of the
group, keep the valid ones, record (but do not act on) per-line errors. -/
def buildSyntax (lines : List String) : Syntax × Option String :=
  let st := lines.foldl buildSyntaxStep ([], none)
  (⟨st.1⟩, st.2)

/-- One iteration of `buildCommand`'s loop: `syn, e := buildSyntax(lineset)`,
`if e != nil { err = e } else if isValidSyntax(syn) { append }`. -/
def buildCommandStep (acc : List Syntax × Option String)
    (lineset : List String) : List Syntax × Option String :=
  let r := buildSyntax lineset
  if r.2 ≠ none then (acc.1, r.2)
  else if isValidSyntax r.1 then (acc.1 ++ [r.1], acc.2)
  else acc

/-- `buildCommand` of the source: build one `Syntax` per group, keep the
valid ones; if none were collected the result is the
"No syntaxes found" failure. -/
def buildCommand (name : String) (paramLines : List (List String)) :
    Command × Option String :=
  let st := paramLines.foldl buildCommandStep ([], none)
  let err := if st.1.length == 0 then some "No syntaxes found" else st.2
  (⟨name, st.1⟩, err)

/-- `manfileToCommand` of the source with the file read stripped: the pure
pipeline from the raw lines of one document to a `Command`. -/
def commandOfLines (rawlines : List String) : Command × Option String :=
  buildCommand (getDefinedName rawlines) (getSynopsisLines rawlines)

/-!  Small facts about `Parameter`'s field accessors and updaters. -/

namespace Parameter

@[simp] theorem empty_optional : empty.optional = false := rfl

@[simp] theorem empty_nospace : empty.nospace = false := rfl

@[simp] theorem empty_hasargument : empty.hasargument = false := rfl

@[simp] theorem empty_hasflags : empty.hasflags = false := rfl

@[simp] theorem empty_hasparameter : empty.hasparameter = false := rfl

@[simp] theorem empty_parameter : empty.parameter = none := rfl

@[simp] theorem empty_nestDepth : nestDepth empty = 0 := rfl

@[simp] theorem setOptional_optional (p : Parameter) (b : Bool) :
    (p.setOptional b).optional = b := by cases p; rfl

@[simp] theorem setOptional_hasargument (p : Parameter) (b : Bool) :
    (p.setOptional b).hasargument = p.hasargument := by cases p; rfl

@[simp] theorem setOptional_hasflags (p : Parameter) (b : Bool) :
    (p.setOptional b).hasflags = p.hasflags := by cases p; rfl

@[simp] theorem setOptional_hasparameter (p : Parameter) (b : Bool) :
    (p.setOptional b).hasparameter = p.hasparameter := by cases p; rfl

@[simp] theorem setOptional_parameter (p : Parameter) (b : Bool) :
    (p.setOptional b).parameter = p.parameter := by cases p; rfl

@[simp] theorem setHasargument_optional (p : Parameter) (b : Bool) :
    (p.setHasargument b).optional = p.optional := by cases p; rfl

@[simp] theorem setHasargument_hasargument (p : Parameter) (b : Bool) :
    (p.setHasargument b).hasargument = b := by cases p; rfl

@[simp] theorem setHasargument_hasflags (p : Parameter) (b : Bool) :
    (p.setHasargument b).hasflags = p.hasflags := by cases p; rfl

@[simp] theorem setHasargument_hasparameter (p : Parameter) (b : Bool) :
    (p.setHasargument b).hasparameter = p.hasparameter := by cases p; rfl

@[simp] theorem setHasargument_parameter (p : Parameter) (b : Bool) :
    (p.setHasargument b).parameter = p.parameter := by cases p; rfl

@[simp] theorem setArgument_optional (p : Parameter) (v : String) :
    (p.setArgument v).optional = p.optional := by cases p; rfl

@[simp] theorem setArgument_hasargument (p : Parameter) (v : String) :
    (p.setArgument v).hasargument = p.hasargument := by cases p; rfl

@[simp] theorem setArgument_argument (p : Parameter) (v : String) :
    (p.setArgument v).argument = v := by cases p; rfl

@[simp] theorem setArgument_hasflags (p : Parameter) (v : String) :
    (p.setArgument v).hasflags = p.hasflags := by cases p; rfl

@[simp] theorem setArgument_hasparameter (p : Parameter) (v : String) :
    (p.setArgument v).hasparameter = p.hasparameter := by cases p; rfl

@[simp] theorem setArgument_parameter (p : Parameter) (v : String) :
    (p.setArgument v).parameter = p.parameter := by cases p; rfl

@[simp] theorem setHasflags_optional (p : Parameter) (b : Bool) :
    (p.setHasflags b).optional = p.optional := by cases p; rfl

@[simp] theorem setHasflags_hasargument (p : Parameter) (b : Bool) :
    (p.setHasflags b).hasargument = p.hasargument := by cases p; rfl

@[simp] theorem setHasflags_hasflags (p : Parameter) (b : Bool) :
    (p.setHasflags b).hasflags = b := by cases p; rfl

@[simp] theorem setHasflags_hasparameter (p : Parameter) (b : Bool) :
    (p.setHasflags b).hasparameter = p.hasparameter := by cases p; rfl

@[simp] theorem setHasflags_parameter (p : Parameter) (b : Bool) :
    (p.setHasflags b).parameter = p.parameter := by cases p; rfl

@[simp] theorem setFlags_optional (p : Parameter) (v : String) :
    (p.setFlags v).optional = p.optional := by cases p; rfl

@[simp] theorem setFlags_hasargument (p : Parameter) (v : String) :
    (p.setFlags v).hasargument = p.hasargument := by cases p; rfl

@[simp] theorem setFlags_hasflags (p : Parameter) (v : String) :
    (p.setFlags v).hasflags = p.hasflags := by cases p; rfl

@[simp] theorem setFlags_flags (p : Parameter) (v : String) :
    (p.setFlags v).flags = v := by cases p; rfl

@[simp] theorem setFlags_hasparameter (p : Parameter) (v : String) :
    (p.setFlags v).hasparameter = p.hasparameter := by cases p; rfl

@[simp] theorem setFlags_parameter (p : Parameter) (v : String) :
    (p.setFlags v).parameter = p.parameter := by cases p; rfl

@[simp] theorem setHasparameter_optional (p : Parameter) (b : Bool) :
    (p.setHasparameter b).optional = p.optional := by cases p; rfl

@[simp] theorem setHasparameter_hasargument (p : Parameter) (b : Bool) :
    (p.setHasparameter b).hasargument = p.hasargument := by cases p; rfl

@[simp] theorem setHasparameter_hasflags (p : Parameter) (b : Bool) :
    (p.setHasparameter b).hasflags = p.hasflags := by cases p; rfl

@[simp] theorem setHasparameter_hasparameter (p : Parameter) (b : Bool) :
    (p.setHasparameter b).hasparameter = b := by cases p; rfl

@[simp] theorem setHasparameter_parameter (p : Parameter) (b : Bool) :
    (p.setHasparameter b).parameter = p.parameter := by cases p; rfl

@[simp] theorem setParameter_optional (p : Parameter) (c : Option Parameter) :
    (p.setParameter c).optional = p.optional := by cases p; rfl

@[simp] theorem setParameter_hasargument (p : Parameter) (c : Option Parameter) :
    (p.setParameter c).hasargument = p.hasargument := by cases p; rfl

@[simp] theorem setParameter_hasflags (p : Parameter) (c : Option Parameter) :
    (p.setParameter c).hasflags = p.hasflags := by cases p; rfl

@[simp] theorem setParameter_hasparameter (p : Parameter) (c : Option Parameter) :
    (p.setParameter c).hasparameter = p.hasparameter := by cases p; rfl

@[simp] theorem setParameter_parameter (p : Parameter) (c : Option Parameter) :
    (p.setParameter c).parameter = c := by cases p; rfl

@[simp] theorem nestDepth_setOptional (p : Parameter) (b : Bool) :
    nestDepth (p.setOptional b) = nestDepth p := by
  cases p with
  | mk n o s ha a hf f hp c => cases c <;> rfl

@[simp] theorem nestDepth_setHasargument (p : Parameter) (b : Bool) :
    nestDepth (p.setHasargument b) = nestDepth p := by
  cases p with
  | mk n o s ha a hf f hp c => cases c <;> rfl

@[simp] theorem nestDepth_setArgument (p : Parameter) (v : String) :
    nestDepth (p.setArgument v) = nestDepth p := by
  cases p with
  | mk n o s ha a hf f hp c => cases c <;> rfl

@[simp] theorem nestDepth_setHasflags (p : Parameter) (b : Bool) :
    nestDepth (p.setHasflags b) = nestDepth p := by
  cases p with
  | mk n o s ha a hf f hp c => cases c <;> rfl

@[simp] theorem nestDepth_setFlags (p : Parameter) (v : String) :
    nestDepth (p.setFlags v) = nestDepth p := by
  cases p with
  | mk n o s ha a hf f hp c => cases c <;> rfl

@[simp] theorem nestDepth_setHasparameter (p : Parameter) (b : Bool) :
    nestDepth (p.setHasparameter b) = nestDepth p := by
  cases p with
  | mk n o s ha a hf f hp c => cases c <;> rfl

@[simp] theorem nestDepth_setParameter_some (p q : Parameter) :
    nestDepth (p.setParameter (some q)) = nestDepth q + 1 := by
  cases p with
  | mk n o s ha a hf f hp c => rfl

end Parameter

/-!  Behavior of the three macro blocks of `buildParameter`. -/

theorem attachNested_none (n : Parameter × Option String) (p : Parameter) :
    attachNested n p none =
      ((p.setHasparameter true).setParameter (some n.1), none) := by
  simp [attachNested]

theorem opStep_not (token : String) (n : Parameter × Option String)
    (p : Parameter) (e : Option String) (h : (token == "Op") = false) :
    opStep token n p e = (p, e) := by
  simp [opStep, h]

theorem arStep_not (token : String) (rest : List String)
    (n : Parameter × Option String) (p : Parameter) (e : Option String)
    (h : (token == "Ar") = false) :
    arStep token rest n p e = (p, e) := by
  simp [arStep, h]

theorem flStep_not (token : String) (rest : List String)
    (n : Parameter × Option String) (p : Parameter) (e : Option String)
    (h : (token == "Fl") = false) :
    flStep token rest n p e = (p, e) := by
  simp [flStep, h]

theorem opStep_first (n : Parameter × Option String) (p : Parameter)
    (e : Option String) (h : p.optional = false) :
    opStep "Op" n p e = (p.setOptional true, e) := by
  simp [opStep, h]

theorem opStep_attach (n : Parameter × Option String) (p : Parameter)
    (e : Option String) (h : p.optional = true) (h2 : p.hasparameter = false) :
    opStep "Op" n p e = attachNested n p e := by
  simp [opStep, h, h2]

theorem arStep_first_cons (next : String) (rest : List String)
    (n : Parameter × Option String) (p : Parameter) (e : Option String)
    (h : p.hasargument = false) :
    arStep "Ar" (next :: rest) n p e =
      ((p.setHasargument true).setArgument next, e) := by
  simp [arStep, h]

theorem arStep_first_nil (n : Parameter × Option String) (p : Parameter)
    (e : Option String) (h : p.hasargument = false) :
    arStep "Ar" [] n p e = ((p.setHasargument true).setArgument "files", e) := by
  simp [arStep, h]

theorem flStep_first_cons (next : String) (rest : List String)
    (n : Parameter × Option String) (p : Parameter) (e : Option String)
    (h : p.hasflags = false) :
    flStep "Fl" (next :: rest) n p e =
      ((p.setHasflags true).setFlags next, e) := by
  simp [flStep, h]

theorem flStep_first_nil (n : Parameter × Option String) (p : Parameter)
    (e : Option String) (h : p.hasflags = false) :
    flStep "Fl" [] n p e = ((p.setHasflags true).setFlags "-", e) := by
  simp [flStep, h]

/-- The argument block never changes the nested-parameter field: its only
reachable branch is the first sighting (the outer guard already requires
`!p.hasargument`, so the redundant-sighting branch is dead). -/
theorem arStep_fst_hasparameter (token : String) (rest : List String)
    (n : Parameter × Option String) (p : Parameter) (e : Option String) :
    (arStep token rest n p e).1.hasparameter = p.hasparameter := by
  unfold arStep
  cases hA : (token == "Ar" && !p.hasargument) with
  | false => rfl
  | true =>
    have h2 : (!p.hasargument) = true := (Bool.and_eq_true _ _ |>.mp hA).2
    simp only [if_pos hA, h2]
    cases rest <;> simp

theorem flStep_fst_hasparameter (token : String) (rest : List String)
    (n : Parameter × Option String) (p : Parameter) (e : Option String) :
    (flStep token rest n p e).1.hasparameter = p.hasparameter := by
  unfold flStep
  cases hA : (token == "Fl" && !p.hasflags) with
  | false => rfl
  | true =>
    have h2 : (!p.hasflags) = true := (Bool.and_eq_true _ _ |>.mp hA).2
    simp only [if_pos hA, h2]
    cases rest <;> simp

theorem arStep_fst_optional (token : String) (rest : List String)
    (n : Parameter × Option String) (p : Parameter) (e : Option String) :
    (arStep token rest n p e).1.optional = p.optional := by
  unfold arStep
  cases hA : (token == "Ar" && !p.hasargument) with
  | false => rfl
  | true =>
    have h2 : (!p.hasargument) = true := (Bool.and_eq_true _ _ |>.mp hA).2
    simp only [if_pos hA, h2]
    cases rest <;> simp

theorem flStep_fst_optional (token : String) (rest : List String)
    (n : Parameter × Option String) (p : Parameter) (e : Option String) :
    (flStep token rest n p e).1.optional = p.optional := by
  unfold flStep
  cases hA : (token == "Fl" && !p.hasflags) with
  | false => rfl
  | true =>
    have h2 : (!p.hasflags) = true := (Bool.and_eq_true _ _ |>.mp hA).2
    simp only [if_pos hA, h2]
    cases rest <;> simp

/-- The argument block ignores the recursion result (the branch using it is
dead code behind the doubled `!p.hasargument` guard). -/
theorem arStep_congr (token : String) (rest : List String)
    (n n' : Parameter × Option String) (p : Parameter) (e : Option String) :
    arStep token rest n p e = arStep token rest n' p e := by
  unfold arStep
  cases hA : (token == "Ar" && !p.hasargument) with
  | false => rfl
  | true =>
    have h2 : (!p.hasargument) = true := (Bool.and_eq_true _ _ |>.mp hA).2
    simp [hA, h2]

theorem flStep_congr (token : String) (rest : List String)
    (n n' : Parameter × Option String) (p : Parameter) (e : Option String) :
    flStep token rest n p e = flStep token rest n' p e := by
  unfold flStep
  cases hA : (token == "Fl" && !p.hasflags) with
  | false => rfl
  | true =>
    have h2 : (!p.hasflags) = true := (Bool.and_eq_true _ _ |>.mp hA).2
    simp [hA, h2]

/-- The optional block ignores the recursion result while `optional` is not
yet set (the recursive branch needs a previous sighting). -/
theorem opStep_congr (token : String) (n n' : Parameter × Option String)
    (p : Parameter) (e : Option String) (h : p.optional = false) :
    opStep token n p e = opStep token n' p e := by
  unfold opStep
  cases hT : (token == "Op") with
  | false => rfl
  | true => simp [hT, h]

theorem opStep_snd_none (token : String) (n : Parameter × Option String)
    (p : Parameter) : (opStep token n p none).2 = none := by
  unfold opStep attachNested
  repeat' split
  all_goals simp_all

theorem arStep_snd_none (token : String) (rest : List String)
    (n : Parameter × Option String) (p : Parameter) :
    (arStep token rest n p none).2 = none := by
  unfold arStep attachNested
  repeat' split
  all_goals simp_all

theorem flStep_snd_none (token : String) (rest : List String)
    (n : Parameter × Option String) (p : Parameter) :
    (flStep token rest n p none).2 = none := by
  unfold flStep attachNested
  repeat' split
  all_goals simp_all

theorem opStep_fst_optional_mono (token : String)
    (n : Parameter × Option String) (p : Parameter) (e : Option String)
    (h : p.optional = true) : (opStep token n p e).1.optional = true := by
  unfold opStep attachNested
  repeat' split
  all_goals simp_all

theorem opStep_fst_nestDepth (token : String) (n : Parameter × Option String)
    (p : Parameter) (e : Option String) :
    Parameter.nestDepth (opStep token n p e).1 ≤
      max (Parameter.nestDepth p) (Parameter.nestDepth n.1 + 1) := by
  unfold opStep attachNested
  repeat' split
  all_goals simp_all

theorem arStep_fst_nestDepth (token : String) (rest : List String)
    (n : Parameter × Option String) (p : Parameter) (e : Option String) :
    Parameter.nestDepth (arStep token rest n p e).1 = Parameter.nestDepth p := by
  unfold arStep
  cases hA : (token == "Ar" && !p.hasargument) with
  | false => rfl
  | true =>
    have h2 : (!p.hasargument) = true := (Bool.and_eq_true _ _ |>.mp hA).2
    simp only [if_pos hA, h2]
    cases rest <;> simp

theorem flStep_fst_nestDepth (token : String) (rest : List String)
    (n : Parameter × Option String) (p : Parameter) (e : Option String) :
    Parameter.nestDepth (flStep token rest n p e).1 = Parameter.nestDepth p := by
  unfold flStep
  cases hA : (token == "Fl" && !p.hasflags) with
  | false => rfl
  | true =>
    have h2 : (!p.hasflags) = true := (Bool.and_eq_true _ _ |>.mp hA).2
    simp only [if_pos hA, h2]
    cases rest <;> simp

/-!  Behavior of one whole loop iteration (`tokenStep`). -/

theorem tokenStep_congr (t : String) (rest : List String)
    (n n' : Parameter × Option String) (p : Parameter) (e : Option String)
    (h : p.optional = false) :
    tokenStep t rest n p e = tokenStep t rest n' p e := by
  simp only [tokenStep]
  rw [opStep_congr (trimLeftDots t) n n' p e h]
  rw [arStep_congr (trimLeftDots t) rest n n']
  rw [flStep_congr (trimLeftDots t) rest n n']

theorem tokenStep_snd_none (t : String) (rest : List String)
    (n : Parameter × Option String) (p : Parameter) :
    (tokenStep t rest n p none).2 = none := by
  simp only [tokenStep]
  rw [opStep_snd_none (trimLeftDots t) n p]
  rw [arStep_snd_none (trimLeftDots t) rest n]
  rw [flStep_snd_none (trimLeftDots t) rest n]

theorem tokenStep_fst_optional_mono (t : String) (rest : List String)
    (n : Parameter × Option String) (p : Parameter) (e : Option String)
    (h : p.optional = true) : (tokenStep t rest n p e).1.optional = true := by
  simp only [tokenStep]
  rw [flStep_fst_optional, arStep_fst_optional]
  exact opStep_fst_optional_mono _ _ _ _ h

theorem tokenStep_op_first (t : String) (rest : List String)
    (n : Parameter × Option String) (p : Parameter) (e : Option String)
    (h : trimLeftDots t = "Op") (ho : p.optional = false) :
    tokenStep t rest n p e = (p.setOptional true, e) := by
  simp only [tokenStep, h]
  rw [opStep_first n p e ho]
  rw [arStep_not "Op" rest n _ _ rfl]
  rw [flStep_not "Op" rest n _ _ rfl]

theorem tokenStep_op_attach (t : String) (rest : List String)
    (n : Parameter × Option String) (p : Parameter) (e : Option String)
    (h : trimLeftDots t = "Op") (ho : p.optional = true)
    (hp : p.hasparameter = false) :
    tokenStep t rest n p e = attachNested n p e := by
  simp only [tokenStep, h]
  rw [opStep_attach n p e ho hp]
  rw [arStep_not "Op" rest n _ _ rfl]
  rw [flStep_not "Op" rest n _ _ rfl]

theorem tokenStep_ar_first (t next : String) (rest : List String)
    (n : Parameter × Option String) (p : Parameter) (e : Option String)
    (h : trimLeftDots t = "Ar") (ha : p.hasargument = false) :
    tokenStep t (next :: rest) n p e =
      ((p.setHasargument true).setArgument next, e) := by
  simp only [tokenStep, h]
  rw [opStep_not "Ar" n p e rfl]
  rw [arStep_first_cons next rest n p e ha]
  rw [flStep_not "Ar" (next :: rest) n _ _ rfl]

theorem tokenStep_fl_first (t next : String) (rest : List String)
    (n : Parameter × Option String) (p : Parameter) (e : Option String)
    (h : trimLeftDots t = "Fl") (hf : p.hasflags = false) :
    tokenStep t (next :: rest) n p e =
      ((p.setHasflags true).setFlags next, e) := by
  simp only [tokenStep, h]
  rw [opStep_not "Fl" n p e rfl]
  rw [arStep_not "Fl" (next :: rest) n p e rfl]
  rw [flStep_first_cons next rest n p e hf]

theorem tokenStep_fst_hasparameter_not_op (t : String) (rest : List String)
    (n : Parameter × Option String) (p : Parameter) (e : Option String)
    (h : (trimLeftDots t == "Op") = false) :
    (tokenStep t rest n p e).1.hasparameter = p.hasparameter := by
  simp only [tokenStep]
  rw [flStep_fst_hasparameter, arStep_fst_hasparameter]
  rw [opStep_not (trimLeftDots t) n p e h]

/-!  The fuel counter of `buildParameterAux` is immaterial above the bound
`2 * |tokens| + (optional ? 1 : 0)`: the nested re-parse of the current
suffix happens only after an earlier token of that suffix set `optional`,
and it restarts from the zero-value `Parameter`, so two fuel units per
token always suffice.  This is the termination argument of the source's
recursion, stated as stability of the fueled model. -/

theorem buildParameterAux_nil (f : Nat) (p : Parameter) (e : Option String) :
    buildParameterAux f p e [] = (p, e) := by
  cases f <;> rfl

theorem buildParameterAux_cons (f : Nat) (p : Parameter) (e : Option String)
    (t : String) (rest : List String) :
    buildParameterAux (f + 1) p e (t :: rest) =
      buildParameterAux f
        (tokenStep t rest (buildParameterAux f Parameter.empty none (t :: rest)) p e).1
        (tokenStep t rest (buildParameterAux f Parameter.empty none (t :: rest)) p e).2
        rest := rfl

theorem buildParameterAux_stable :
    ∀ f g p e ts, 2 * ts.length + cond p.optional 1 0 ≤ f →
      2 * ts.length + cond p.optional 1 0 ≤ g →
      buildParameterAux f p e ts = buildParameterAux g p e ts := by
  intro f
  induction f using Nat.strong_induction_on with
  | _ f IH =>
    intro g p e ts hf hg
    cases ts with
    | nil => rw [buildParameterAux_nil, buildParameterAux_nil]
    | cons t rest =>
      have hc : cond p.optional 1 0 ≤ 1 := by cases p.optional <;> simp
      have hlen : (t :: rest).length = rest.length + 1 := rfl
      rw [hlen] at hf hg
      obtain ⟨f', rfl⟩ : ∃ f', f = f' + 1 := ⟨f - 1, by omega⟩
      obtain ⟨g', rfl⟩ : ∃ g', g = g' + 1 := ⟨g - 1, by omega⟩
      rw [buildParameterAux_cons, buildParameterAux_cons]
      have hstep : ∀ n : Parameter × Option String,
          cond (tokenStep t rest n p e).1.optional 1 0 ≤ 1 := by
        intro n
        cases (tokenStep t rest n p e).1.optional <;> simp
      by_cases hopt : p.optional = true
      · have h1 : cond p.optional 1 0 = 1 := by rw [hopt]; rfl
        rw [h1] at hf hg
        have hnest : buildParameterAux f' Parameter.empty none (t :: rest) =
            buildParameterAux g' Parameter.empty none (t :: rest) := by
          apply IH f' (by omega)
          · simp only [hlen, Parameter.empty_optional, Bool.cond_false]
            omega
          · simp only [hlen, Parameter.empty_optional, Bool.cond_false]
            omega
        rw [hnest]
        apply IH f' (by omega)
        · have := hstep (buildParameterAux g' Parameter.empty none (t :: rest))
          omega
        · have := hstep (buildParameterAux g' Parameter.empty none (t :: rest))
          omega
      · have hopt' : p.optional = false := by
          cases h : p.optional
          · rfl
          · exact absurd h hopt
        rw [tokenStep_congr t rest
          (buildParameterAux f' Parameter.empty none (t :: rest))
          (buildParameterAux g' Parameter.empty none (t :: rest)) p e hopt']
        apply IH f' (by omega)
        · have := hstep (buildParameterAux g' Parameter.empty none (t :: rest))
          omega
        · have := hstep (buildParameterAux g' Parameter.empty none (t :: rest))
          omega

theorem buildParameter_eq_go (ts : List String) :
    buildParameter ts = buildParameterGo Parameter.empty none ts := by
  unfold buildParameter buildParameterGo
  apply buildParameterAux_stable
  · simp
  · simp

theorem buildParameterGo_nil (p : Parameter) (e : Option String) :
    buildParameterGo p e [] = (p, e) := by
  unfold buildParameterGo
  exact buildParameterAux_nil _ _ _

/-- One unfolding of the source's token loop: process the head token with
the three macro blocks (the nested re-parse being `buildParameter` on the
whole current suffix, current token included) and continue on the tail. -/
theorem buildParameterGo_cons (p : Parameter) (e : Option String)
    (t : String) (rest : List String) :
    buildParameterGo p e (t :: rest) =
      buildParameterGo (tokenStep t rest (buildParameter (t :: rest)) p e).1
        (tokenStep t rest (buildParameter (t :: rest)) p e).2 rest := by
  unfold buildParameterGo buildParameter
  rw [buildParameterAux_cons]
  apply buildParameterAux_stable <;>
    cases hb : (tokenStep t rest
        (buildParameterAux (2 * (t :: rest).length) Parameter.empty none (t :: rest))
        p e).1.optional <;>
      simp only [hb, Bool.cond_false, Bool.cond_true, List.length_cons] <;> omega

theorem go_snd_none (ts : List String) : ∀ p : Parameter,
    (buildParameterGo p none ts).2 = none := by
  induction ts with
  | nil =>
    intro p
    rw [buildParameterGo_nil]
  | cons t rest IH =>
    intro p
    rw [buildParameterGo_cons]
    rw [tokenStep_snd_none t rest (buildParameter (t :: rest)) p]
    exact IH _

/-- The source's `buildParameter` never returns an error: `err` starts as
`nil` and is only ever overwritten under an `if err != nil` guard. -/
theorem buildParameter_snd_none (ts : List String) :
    (buildParameter ts).2 = none := by
  rw [buildParameter_eq_go]
  exact go_snd_none ts Parameter.empty

theorem go_fst_optional_mono (ts : List String) : ∀ (p : Parameter)
    (e : Option String), p.optional = true →
    (buildParameterGo p e ts).1.optional = true := by
  induction ts with
  | nil =>
    intro p e h
    rw [buildParameterGo_nil]
    exact h
  | cons t rest IH =>
    intro p e h
    rw [buildParameterGo_cons]
    exact IH _ _ (tokenStep_fst_optional_mono t rest _ p e h)

/-- A suffix headed by an `Op` token parses to a `Parameter` whose own scan
re-observes that token as its first sighting: the loop restarts from the
zero value, sets `optional` on the head token, and continues on the tail. -/
theorem buildParameter_op_head (t : String) (rest : List String)
    (h : trimLeftDots t = "Op") :
    buildParameter (t :: rest) =
      buildParameterGo (Parameter.empty.setOptional true) none rest := by
  rw [buildParameter_eq_go, buildParameterGo_cons]
  rw [tokenStep_op_first t rest (buildParameter (t :: rest)) Parameter.empty
    none h Parameter.empty_optional]

theorem go_fst_hasparameter (ts : List String) : ∀ (p : Parameter)
    (e : Option String), (∀ x ∈ ts, trimLeftDots x ≠ "Op") →
    p.hasparameter = false →
    (buildParameterGo p e ts).1.hasparameter = false := by
  induction ts with
  | nil =>
    intro p e _ hp
    rw [buildParameterGo_nil]
    exact hp
  | cons t rest IH =>
    intro p e hall hp
    rw [buildParameterGo_cons]
    apply IH _ _ (fun x hx => hall x (List.mem_cons_of_mem t hx))
    rw [tokenStep_fst_hasparameter_not_op]
    · exact hp
    · exact beq_eq_false_iff_ne.mpr (hall t (List.mem_cons_self t rest))

theorem opStep_skip (n : Parameter × Option String) (p : Parameter)
    (e : Option String) (ho : p.optional = true) (hp : p.hasparameter = true) :
    opStep "Op" n p e = (p, e) := by
  simp [opStep, ho, hp]

theorem tokenStep_op_skip (t : String) (rest : List String)
    (n : Parameter × Option String) (p : Parameter) (e : Option String)
    (h : trimLeftDots t = "Op") (ho : p.optional = true)
    (hp : p.hasparameter = true) : tokenStep t rest n p e = (p, e) := by
  simp only [tokenStep, h]
  rw [opStep_skip n p e ho hp]
  rw [arStep_not "Op" rest n p e rfl]
  rw [flStep_not "Op" rest n p e rfl]

theorem attachNested_fst_nestDepth (n : Parameter × Option String)
    (p : Parameter) (e : Option String) :
    Parameter.nestDepth (attachNested n p e).1 ≤
      max (Parameter.nestDepth p) (Parameter.nestDepth n.1 + 1) := by
  unfold attachNested
  split <;> simp

theorem tokenStep_fst_nestDepth_not_op (t : String) (rest : List String)
    (n : Parameter × Option String) (p : Parameter) (e : Option String)
    (h : (trimLeftDots t == "Op") = false) :
    Parameter.nestDepth (tokenStep t rest n p e).1 = Parameter.nestDepth p := by
  simp only [tokenStep]
  rw [flStep_fst_nestDepth, arStep_fst_nestDepth, opStep_not _ _ _ _ h]

theorem go_fst_nestDepth (ts : List String) : ∀ (p : Parameter)
    (e : Option String),
    Parameter.nestDepth (buildParameterGo p e ts).1 ≤
      max (Parameter.nestDepth p) ts.length := by
  induction ts with
  | nil =>
    intro p e
    rw [buildParameterGo_nil]
    exact le_max_left _ _
  | cons t rest IH =>
    intro p e
    rw [buildParameterGo_cons]
    refine le_trans (IH _ _) ?_
    have hS : Parameter.nestDepth
        (tokenStep t rest (buildParameter (t :: rest)) p e).1 ≤
        max (Parameter.nestDepth p) (rest.length + 1) := by
      by_cases hT : (trimLeftDots t == "Op") = true
      · have ht : trimLeftDots t = "Op" := by simpa using hT
        by_cases ho : p.optional = true
        · by_cases hp : p.hasparameter = true
          · rw [tokenStep_op_skip t rest _ p e ht ho hp]
            exact le_max_left _ _
          · have hp' : p.hasparameter = false := by
              cases h : p.hasparameter
              · rfl
              · exact absurd h hp
            rw [tokenStep_op_attach t rest _ p e ht ho hp']
            refine le_trans (attachNested_fst_nestDepth _ p e) ?_
            have hN : Parameter.nestDepth (buildParameter (t :: rest)).1 ≤
                rest.length := by
              rw [buildParameter_op_head t rest ht]
              refine le_trans (IH _ _) ?_
              simp
            exact max_le (le_max_left _ _)
              (le_trans (by omega) (le_max_right _ _))
        · have ho' : p.optional = false := by
            cases h : p.optional
            · rfl
            · exact absurd h ho
          rw [tokenStep_op_first t rest _ p e ht ho']
          simp
      · have hT' : (trimLeftDots t == "Op") = false := by
          cases h : (trimLeftDots t == "Op")
          · rfl
          · exact absurd h hT
        rw [tokenStep_fst_nestDepth_not_op t rest _ p e hT']
        exact le_max_left _ _
    exact max_le hS (le_trans (Nat.le_succ _) (le_max_right _ _))

/-- The nesting of the tree built from one line is bounded by the number of
tokens of that line. -/
theorem buildParameter_fst_nestDepth (ts : List String) :
    Parameter.nestDepth (buildParameter ts).1 ≤ ts.length := by
  rw [buildParameter_eq_go]
  refine le_trans (go_fst_nestDepth ts Parameter.empty none) ?_
  simp

/-!  The assemblers: error threading and validity filtering. -/

theorem buildSyntaxStep_snd_none (acc : List Parameter × Option String)
    (l : String) (h : acc.2 = none) : (buildSyntaxStep acc l).2 = none := by
  unfold buildSyntaxStep
  simp only [buildParameter_snd_none, ne_eq, not_true_eq_false, if_false]
  split <;> simp [h]

theorem buildSyntaxFold_snd_none (ls : List String) :
    ∀ acc : List Parameter × Option String, acc.2 = none →
    (ls.foldl buildSyntaxStep acc).2 = none := by
  induction ls with
  | nil =>
    intro acc h
    exact h
  | cons l rest IH =>
    intro acc h
    rw [List.foldl_cons]
    exact IH _ (buildSyntaxStep_snd_none acc l h)

theorem buildSyntax_snd_none (ls : List String) : (buildSyntax ls).2 = none := by
  unfold buildSyntax
  exact buildSyntaxFold_snd_none ls ([], none) rfl

theorem buildSyntaxStep_valid (acc : List Parameter × Option String)
    (l : String) (h : ∀ q ∈ acc.1, isValidParameter q = true) :
    ∀ q ∈ (buildSyntaxStep acc l).1, isValidParameter q = true := by
  intro q hq
  simp only [buildSyntaxStep] at hq
  split at hq
  · exact h q hq
  · split at hq
    · rcases List.mem_append.mp hq with hq | hq
      · exact h q hq
      · rw [List.mem_singleton.mp hq]
        assumption
    · exact h q hq

theorem buildSyntaxFold_valid (ls : List String) :
    ∀ acc : List Parameter × Option String,
    (∀ q ∈ acc.1, isValidParameter q = true) →
    ∀ q ∈ (ls.foldl buildSyntaxStep acc).1, isValidParameter q = true := by
  induction ls with
  | nil =>
    intro acc h
    exact h
  | cons l rest IH =>
    intro acc h
    rw [List.foldl_cons]
    exact IH _ (buildSyntaxStep_valid acc l h)

theorem buildSyntax_params_valid (ls : List String) :
    ∀ q ∈ (buildSyntax ls).1.parameters, isValidParameter q = true := by
  unfold buildSyntax
  exact buildSyntaxFold_valid ls ([], none) (by intro q hq; cases hq)

theorem buildCommandStep_snd_none (acc : List Syntax × Option String)
    (lineset : List String) (h : acc.2 = none) :
    (buildCommandStep acc lineset).2 = none := by
  unfold buildCommandStep
  simp only [buildSyntax_snd_none, ne_eq, not_true_eq_false, if_false]
  split <;> simp [h]

theorem buildCommandFold_snd_none (pls : List (List String)) :
    ∀ acc : List Syntax × Option String, acc.2 = none →
    (pls.foldl buildCommandStep acc).2 = none := by
  induction pls with
  | nil =>
    intro acc h
    exact h
  | cons ls rest IH =>
    intro acc h
    rw [List.foldl_cons]
    exact IH _ (buildCommandStep_snd_none acc ls h)

theorem buildCommandStep_valid (acc : List Syntax × Option String)
    (lineset : List String)
    (h : ∀ s ∈ acc.1, ∀ q ∈ s.parameters, isValidParameter q = true) :
    ∀ s ∈ (buildCommandStep acc lineset).1, ∀ q ∈ s.parameters,
      isValidParameter q = true := by
  intro s hs
  simp only [buildCommandStep] at hs
  split at hs
  · exact h s hs
  · split at hs
    · rcases List.mem_append.mp hs with hs | hs
      · exact h s hs
      · rw [List.mem_singleton.mp hs]
        exact buildSyntax_params_valid lineset
    · exact h s hs

theorem buildCommandFold_valid (pls : List (List String)) :
    ∀ acc : List Syntax × Option String,
    (∀ s ∈ acc.1, ∀ q ∈ s.parameters, isValidParameter q = true) →
    ∀ s ∈ (pls.foldl buildCommandStep acc).1, ∀ q ∈ s.parameters,
      isValidParameter q = true := by
  induction pls with
  | nil =>
    intro acc h
    exact h
  | cons ls rest IH =>
    intro acc h
    rw [List.foldl_cons]
    exact IH _ (buildCommandStep_valid acc ls h)

/-!  The name resolver. -/

theorem splitOnSpace_no_space (l : List Char)
    (h : ∀ c ∈ l, (c == ' ') = false) : splitOnSpace l = [l] := by
  induction l with
  | nil => rfl
  | cons c t IH =>
    have hc := h c (List.mem_cons_self c t)
    simp only [splitOnSpace, hc, Bool.false_eq_true, if_false]
    rw [IH (fun x hx => h x (List.mem_cons_of_mem c hx))]

theorem isNameDefLine_shape (l : String) (h : isNameDefLine l = true) :
    l.toList = '.' :: 'N' :: 'm' :: ' ' :: l.toList.drop 4 ∧
      ∀ c ∈ l.toList.drop 4, (c == ' ') = false := by
  unfold isNameDefLine at h
  rw [Bool.and_eq_true, Bool.and_eq_true] at h
  obtain ⟨h1, _, h3⟩ := h
  constructor
  · obtain ⟨tail, htail⟩ := List.isPrefixOf_iff_prefix.mp h1
    have hl : l.toList = '.' :: 'N' :: 'm' :: ' ' :: tail := htail.symm
    rw [hl]
    rfl
  · intro c hc
    have hcz := List.all_eq_true.mp h3 c hc
    rw [Bool.and_eq_true, decide_eq_true_iff, decide_eq_true_iff] at hcz
    apply beq_eq_false_iff_ne.mpr
    intro hceq
    rw [hceq] at hcz
    exact absurd hcz.1 (by decide)

theorem getDefinedName_cons_found (l : String) (rest : List String)
    (h : isNameDefLine l = true) :
    getDefinedName (l :: rest) = String.mk (l.toList.drop 4) := by
  obtain ⟨hshape, hsp⟩ := isNameDefLine_shape l h
  unfold getDefinedName
  rw [if_pos h]
  congr 1
  generalize hw : l.toList.drop 4 = w at hshape hsp
  rw [hshape]
  rw [show splitOnSpace ('.' :: 'N' :: 'm' :: ' ' :: w) =
    ['.', 'N', 'm'] :: splitOnSpace w from rfl]
  rw [splitOnSpace_no_space w hsp]
  rfl

theorem getDefinedName_cons_skip (x : String) (xs : List String)
    (hx : isNameDefLine x = false) :
    getDefinedName (x :: xs) = getDefinedName xs := by
  show (if isNameDefLine x = true then
      String.mk ((splitOnSpace x.toList).getD 1 []) else getDefinedName xs) =
    getDefinedName xs
  rw [if_neg (by simp [hx])]

theorem getDefinedName_skip (pre : List String)
    (h : ∀ x ∈ pre, isNameDefLine x = false) (tail : List String) :
    getDefinedName (pre ++ tail) = getDefinedName tail := by
  induction pre with
  | nil => rfl
  | cons x rest IH =>
    rw [List.cons_append,
      getDefinedName_cons_skip x (rest ++ tail) (h x (List.mem_cons_self x rest))]
    exact IH (fun y hy => h y (List.mem_cons_of_mem x hy))

/-!  The synopsis extractor's sentinel. -/

theorem getSynopsisLinesLoop_start_zero (lines : List String) :
    ∀ (i : Nat) (acc : SynAcc), acc.start = 0 →
    (∀ x ∈ lines, isSynopsisLine x = false) →
    getSynopsisLinesLoop lines i acc = acc.synopsis := by
  induction lines with
  | nil =>
    intro i acc _ _
    rfl
  | cons l rest IH =>
    intro i acc h0 hall
    have h1 : isSynopsisLine l = false := hall l (List.mem_cons_self l rest)
    simp only [getSynopsisLinesLoop, h1, Bool.false_eq_true, if_false, h0,
      ne_eq, not_true_eq_false]
    exact IH (i + 1) acc h0 (fun x hx => hall x (List.mem_cons_of_mem l hx))

/-!  The claims. -/

/-- C1 (counterexample): contrary to the claim, `buildParameter` on
`["Ar","src","Ar","dst"]` attaches no nested parameter at all — the
argument block is guarded by `token == "Ar" && !p.hasargument`, so a
redundant `Ar` sighting never enters the block.  The argument is still
`"src"`. -/
theorem claim_C1_counterexample :
    ¬ ((buildParameter ["Ar", "src", "Ar", "dst"]).1.hasparameter = true) ∧
    (buildParameter ["Ar", "src", "Ar", "dst"]).1.argument = "src" :=
  ⟨by decide, by decide⟩

/-- C1 (amended): for `["Ar","src","Ar","dst"]` the builder returns
`argument = "src"` and no nested parameter; likewise a redundant `Fl`
sighting is ignored.  In general no token list free of `Op` tokens ever
produces a nested parameter: only a redundant `Op` sighting can attach
one. -/
theorem claim_C1_amended :
    (buildParameter ["Ar", "src", "Ar", "dst"]).1.argument = "src" ∧
    (buildParameter ["Ar", "src", "Ar", "dst"]).1.hasargument = true ∧
    (buildParameter ["Ar", "src", "Ar", "dst"]).1.hasparameter = false ∧
    (buildParameter ["Fl", "a", "Fl", "b"]).1.flags = "a" ∧
    (buildParameter ["Fl", "a", "Fl", "b"]).1.hasparameter = false ∧
    (∀ ts : List String, (∀ t ∈ ts, trimLeftDots t ≠ "Op") →
        (buildParameter ts).1.hasparameter = false) := by
  refine ⟨by decide, by decide, by decide, by decide, by decide, ?_⟩
  intro ts h
  rw [buildParameter_eq_go]
  exact go_fst_hasparameter ts Parameter.empty none h rfl

/-- C1 (witness for the amended claim's general part). -/
theorem claim_C1_amended_witness :
    (buildParameter ["Ar", "x", "Fl", "y"]).1.hasparameter = false :=
  claim_C1_amended.2.2.2.2.2 ["Ar", "x", "Fl", "y"] (by decide)

/-- C2: `buildCommand` fails with "No syntaxes found" exactly when the
collected syntax list is empty; `buildSyntax` never reports an error of its
own (so per-line build errors cannot fail the build); and a document whose
SYNOPSIS carries only name-macro lines yields the failure. -/
theorem claim_C2 :
    (∀ (name : String) (pls : List (List String)),
        (buildCommand name pls).2 =
          if (buildCommand name pls).1.syntaxes.isEmpty then
            some "No syntaxes found" else none) ∧
    (∀ ls : List String, (buildSyntax ls).2 = none) ∧
    (commandOfLines ["preamble", ".Sh SYNOPSIS", ".Nm foo", ".Nm foo bar",
      ".Sh DESCRIPTION"]).2 = some "No syntaxes found" := by
  refine ⟨?_, buildSyntax_snd_none, by decide⟩
  intro name pls
  unfold buildCommand
  have hsnd : (pls.foldl buildCommandStep
      (([] : List Syntax), (none : Option String))).2 = none :=
    buildCommandFold_snd_none pls ([], none) rfl
  cases hl : (pls.foldl buildCommandStep
      (([] : List Syntax), (none : Option String))).1 with
  | nil => simp [hl]
  | cons s ss => simp [hl, hsnd]

/-- C3: in `buildParameter`'s loop, a first `Op` sighting sets `optional`;
a later `Op` sighting with no nested parameter yet attaches the result of
re-running the builder on the suffix starting at that same token; and that
re-run re-observes the `Op` token as its own first sighting, so the nested
node's `optional` is true as well. -/
theorem claim_C3 :
    (∀ (p : Parameter) (e : Option String) (t : String) (rest : List String),
        trimLeftDots t = "Op" → p.optional = false →
        buildParameterGo p e (t :: rest) =
          buildParameterGo (p.setOptional true) e rest) ∧
    (∀ (p : Parameter) (t : String) (rest : List String),
        trimLeftDots t = "Op" → p.optional = true → p.hasparameter = false →
        buildParameterGo p none (t :: rest) =
          buildParameterGo
            ((p.setHasparameter true).setParameter
              (some (buildParameter (t :: rest)).1)) none rest) ∧
    (∀ (t : String) (rest : List String), trimLeftDots t = "Op" →
        (buildParameter (t :: rest)).1.optional = true) := by
  refine ⟨?_, ?_, ?_⟩
  · intro p e t rest h ho
    rw [buildParameterGo_cons]
    rw [tokenStep_op_first t rest (buildParameter (t :: rest)) p e h ho]
  · intro p t rest h ho hp
    rw [buildParameterGo_cons]
    rw [tokenStep_op_attach t rest (buildParameter (t :: rest)) p none h ho hp]
    rw [attachNested_none (buildParameter (t :: rest)) p]
  · intro t rest h
    rw [buildParameter_op_head t rest h]
    exact go_fst_optional_mono rest _ none (by simp)

/-- C3 (witness): a second `Op` sighting from a state whose `optional` is
already set attaches the re-parse of the whole suffix as nested child. -/
theorem claim_C3_witness :
    buildParameterGo (Parameter.empty.setOptional true) none
        [".Op", "Fl", "x"] =
      buildParameterGo
        (((Parameter.empty.setOptional true).setHasparameter true).setParameter
          (some (buildParameter [".Op", "Fl", "x"]).1)) none ["Fl", "x"] :=
  claim_C3.2.1 (Parameter.empty.setOptional true) ".Op" ["Fl", "x"] rfl
    (by simp) (by simp)

/-- C4: every 3×3 rendering combination of the heading tag and the word
"synopsis" is recognized as a synopsis heading prefix, and an unrelated
section word such as "description" is not. -/
theorem claim_C4 :
    (∀ f ∈ modfunctions, ∀ g ∈ modfunctions, ∀ line : String,
        strHasPrefix line (f ".Sh" ++ " " ++ g "synopsis") = true →
        isSynopsisLine line = true) ∧
    isSynopsisLine ".Sh description" = false ∧
    isSynopsisLine ".SH DESCRIPTION" = false := by
  refine ⟨?_, by decide, by decide⟩
  intro f hf g hg line h
  unfold isSynopsisLine
  rw [List.any_eq_true]
  exact ⟨f, hf, List.any_eq_true.mpr ⟨g, hg, h⟩⟩

/-- C4 (witness): uppercased tag with quoted section word. -/
theorem claim_C4_witness : isSynopsisLine ".SH \"synopsis\" more" = true :=
  claim_C4.1 toUpperStr (by simp [modfunctions]) quoteString
    (by simp [modfunctions]) ".SH \"synopsis\" more" (by decide)

/-- C5 (counterexample): with the heading as the very first input line the
extractor returns no groups at all (the `start != 0` sentinel, cf. C10), so
the claimed two groups do not appear. -/
theorem claim_C5_counterexample :
    getSynopsisLines [".Sh SYNOPSIS", ".Nm foo", ".Op Fl x", ".Nm foo",
        ".Ar file", ".Sh DESCRIPTION"] ≠
      [[".Nm foo", ".Op Fl x"], [".Nm foo", ".Ar file"]] := by
  decide

/-- C5 (amended): when at least one line precedes the synopsis heading the
example yields exactly the two claimed groups (each `.Nm` line opens a new
group); with the heading at index 0 the result is empty; and the first
compliant line after the heading opens a group even when it is not a name
line. -/
theorem claim_C5_amended :
    getSynopsisLines ["preamble", ".Sh SYNOPSIS", ".Nm foo", ".Op Fl x",
        ".Nm foo", ".Ar file", ".Sh DESCRIPTION"] =
      [[".Nm foo", ".Op Fl x"], [".Nm foo", ".Ar file"]] ∧
    getSynopsisLines [".Sh SYNOPSIS", ".Nm foo", ".Op Fl x", ".Nm foo",
        ".Ar file", ".Sh DESCRIPTION"] = [] ∧
    getSynopsisLines ["preamble", ".Sh SYNOPSIS", ".Op Fl x", ".Nm foo",
        ".Ar file", ".Sh DESCRIPTION"] =
      [[".Op Fl x"], [".Nm foo", ".Ar file"]] := by
  refine ⟨by decide, by decide, by decide⟩

/-- C6: `["Ar"]` yields the placeholder argument "files", `["Fl"]` the bare
flag "-", and a first sighting followed by another token consumes that
token as the argument (resp. flag) value. -/
theorem claim_C6 :
    (buildParameter ["Ar"]).1.argument = "files" ∧
    (buildParameter ["Ar"]).1.hasargument = true ∧
    (buildParameter ["Fl"]).1.flags = "-" ∧
    (buildParameter ["Fl"]).1.hasflags = true ∧
    (∀ (p : Parameter) (e : Option String) (t next : String)
        (rest : List String), trimLeftDots t = "Ar" → p.hasargument = false →
        buildParameterGo p e (t :: next :: rest) =
          buildParameterGo ((p.setHasargument true).setArgument next) e
            (next :: rest)) ∧
    (∀ (p : Parameter) (e : Option String) (t next : String)
        (rest : List String), trimLeftDots t = "Fl" → p.hasflags = false →
        buildParameterGo p e (t :: next :: rest) =
          buildParameterGo ((p.setHasflags true).setFlags next) e
            (next :: rest)) := by
  refine ⟨by decide, by decide, by decide, by decide, ?_, ?_⟩
  · intro p e t next rest h ha
    rw [buildParameterGo_cons]
    rw [tokenStep_ar_first t next rest
      (buildParameter (t :: next :: rest)) p e h ha]
  · intro p e t next rest h hf
    rw [buildParameterGo_cons]
    rw [tokenStep_fl_first t next rest
      (buildParameter (t :: next :: rest)) p e h hf]

/-- C6 (witness): a first `.Ar` sighting stores the following token. -/
theorem claim_C6_witness :
    buildParameterGo Parameter.empty none [".Ar", "x"] =
      buildParameterGo ((Parameter.empty.setHasargument true).setArgument "x")
        none ["x"] :=
  claim_C6.2.2.2.2.1 Parameter.empty none ".Ar" "x" [] rfl rfl

/-- C7: name resolution returns the word of the first line that is exactly
the name macro, one space and one lowercase word (the part after `.Nm `),
and the empty string when no line matches. -/
theorem claim_C7 :
    (∀ (pre : List String) (l : String) (post : List String),
        (∀ x ∈ pre, isNameDefLine x = false) → isNameDefLine l = true →
        getDefinedName (pre ++ l :: post) = String.mk (l.toList.drop 4)) ∧
    (∀ lines : List String, (∀ x ∈ lines, isNameDefLine x = false) →
        getDefinedName lines = "") ∧
    getDefinedName [".Nm grep"] = "grep" ∧
    getDefinedName ["x", ".Nm Grep", ".Nm foo bar"] = "" := by
  refine ⟨?_, ?_, by decide, by decide⟩
  · intro pre l post hpre hl
    rw [getDefinedName_skip pre hpre (l :: post)]
    exact getDefinedName_cons_found l post hl
  · intro lines hall
    have h := getDefinedName_skip lines hall []
    rw [List.append_nil] at h
    rw [h]
    rfl

/-- C7 (witness): the first matching line's word is returned. -/
theorem claim_C7_witness :
    getDefinedName (["intro"] ++ ".Nm abc" :: ["post"]) =
      String.mk (".Nm abc".toList.drop 4) :=
  claim_C7.1 ["intro"] ".Nm abc" ["post"] (by decide) (by decide)

/-- C8: every parameter inside any syntax the pipeline produces satisfies
the validity disjunction, and a parameter built from a pure name-macro line
is invalid (hence filtered out). -/
theorem claim_C8 :
    (∀ (rawlines : List String) (s : Syntax) (q : Parameter),
        s ∈ (commandOfLines rawlines).1.syntaxes → q ∈ s.parameters →
        isValidParameter q = true) ∧
    isValidParameter (buildParameter (goSplitSpace ".Nm foo")).1 = false := by
  refine ⟨?_, by decide⟩
  intro rawlines s q hs hq
  simp only [commandOfLines, buildCommand] at hs
  exact buildCommandFold_valid (getSynopsisLines rawlines) ([], none)
    (by intro s' hs'; cases hs') s hs q hq

/-- C8 (witness): the parameter of the one syntax extracted from an
`.Op Fl x` synopsis is valid. -/
theorem claim_C8_witness :
    isValidParameter (buildParameter (goSplitSpace ".Op Fl x")).1 = true :=
  claim_C8.1 ["pre", ".Sh SYNOPSIS", ".Op Fl x", ".Sh DESCRIPTION"]
    (buildSyntax [".Op Fl x"]).1 (buildParameter (goSplitSpace ".Op Fl x")).1
    (List.Mem.head _) (List.Mem.head _)

/-- C9: the nested-parameter chain of the tree built from a token list is
bounded by the list's length, and the fuel counter of the model is
immaterial from `2 * |tokens|` on (the source's recursion always restarts
on a strict suffix, so it terminates). -/
theorem claim_C9 :
    (∀ ts : List String,
        Parameter.nestDepth (buildParameter ts).1 ≤ ts.length) ∧
    (∀ (ts : List String) (f : Nat), 2 * ts.length ≤ f →
        buildParameterAux f Parameter.empty none ts = buildParameter ts) := by
  refine ⟨buildParameter_fst_nestDepth, ?_⟩
  intro ts f h
  unfold buildParameter
  apply buildParameterAux_stable <;> (simp; try omega)

/-- C9 (witness): any fuel at least twice the token count gives the same
result. -/
theorem claim_C9_witness :
    buildParameterAux 9 Parameter.empty none [".Op", "Fl", "x"] =
      buildParameter [".Op", "Fl", "x"] :=
  claim_C9.2 [".Op", "Fl", "x"] 9 (by decide)

/-- C10: a synopsis heading on the very first line (index 0) leaves the
`start != 0` sentinel unset, so the extractor returns no groups even though
compliant lines follow. -/
theorem claim_C10 (l : String) (rest : List String)
    (h : isSynopsisLine l = true)
    (hall : ∀ x ∈ rest, isSynopsisLine x = false) :
    getSynopsisLines (l :: rest) = [] := by
  unfold getSynopsisLines
  simp only [getSynopsisLinesLoop, h, if_true]
  exact getSynopsisLinesLoop_start_zero rest 1 _ rfl hall

/-- C10 (witness): heading first, compliant lines after, no groups. -/
theorem claim_C10_witness :
    getSynopsisLines [".Sh SYNOPSIS", ".Nm foo", ".Op Fl x"] = [] :=
  claim_C10 ".Sh SYNOPSIS" [".Nm foo", ".Op Fl x"] (by decide) (by decide)
